import Mathlib

/-!
# Telemetry firmware: sampling and publishing loops

Shallow embedding of `main/esp_http_client_example.c`:

* `http_rest_with_url` : the Status Publisher (payload formatting, one PATCH per tick),
  with `_http_event_handler`, which copies the response body;
* `pheriperals_handle` : the RPM Sampler (edge counting, `60000 / one_rot`);
* `adc_read`           : the Analog Sampler (64-sample mean, pressure scaling).

Machine integers are `Nat`/`Int` with the C conversions written out. Vendor SDK
calls (`gpio_get_level`, `esp_timer_get_time`, `adc1_get_raw`,
`esp_adc_cal_raw_to_voltage`, `esp_http_client_perform`) are inputs of the
loop bodies. Undefined behaviour of the C program (integer division by zero,
writing through a `NULL` returned by `malloc`, writing past the end of
`hello_world` or of `local_response_buffer`) is the `none` result.
-/

namespace Telemetry

/-! ## C integer conversions -/

/-- Conversion to `uint8_t`: reduction modulo 2^8. -/
def toUInt8 (z : Int) : Nat := (z % 256).toNat

/-- Conversion to `uint32_t`: reduction modulo 2^32. -/
def toUInt32 (z : Int) : Nat := (z % 4294967296).toNat

/-- Conversion to `uint64_t`: reduction modulo 2^64. -/
def toUInt64 (z : Int) : Nat := (z % 18446744073709551616).toNat

/-- Conversion to `int32_t` (two's complement wrap, as gcc does it). -/
def toInt32 (z : Int) : Int :=
  if z % 4294967296 < 2147483648 then z % 4294967296 else z % 4294967296 - 4294967296

/-! ## Shared latest-value variables

`uint8_t final_rpm = 0; uint8_t final_pression = 0; uint8_t final_end = 0;` -/

/-- The three global `uint8_t` variables shared by the tasks. -/
structure Shared where
  final_rpm : Nat
  final_pression : Nat
  final_end : Nat
  deriving DecidableEq, Repr

/-- Every shared variable holds a `uint8_t` value. -/
def Shared.InRange (g : Shared) : Prop :=
  g.final_rpm < 256 ∧ g.final_pression < 256 ∧ g.final_end < 256

instance (g : Shared) : Decidable g.InRange := by
  unfold Shared.InRange; infer_instance

/-! ## Status Publisher: `http_rest_with_url` -/

/-- An argument consumed by a conversion specification of `sprintf`. -/
inductive FmtArg where
  | str (s : String)
  | int (n : Int)

/-- The part of `sprintf` the firmware uses: `%s` copies a string, `%d` prints
an `int` in decimal, every other character is copied. -/
def vsprintf : List Char → List FmtArg → List Char
  | [], _ => []
  | '%' :: 's' :: rest, FmtArg.str s :: args => s.data ++ vsprintf rest args
  | '%' :: 'd' :: rest, FmtArg.int n :: args => (toString n).data ++ vsprintf rest args
  | c :: rest, args => c :: vsprintf rest args

/-- The string `sprintf(buf, fmt, args...)` leaves in `buf` (without the NUL). -/
def sprintf (fmt : String) (args : List FmtArg) : String :=
  String.mk (vsprintf fmt.data args)

/-- The format string of line 211. -/
def PATCH_FORMAT : String :=
  "\x7b\"fleet\": 4200,\"model\": \"HidroROLL\",\"lat\": 0,\"lng\": 0,\"engaged\": %s,\"pression\": %d,\"speed\": %d,\"op\": 6656,\"group\": 1\x7d"

/-- The size passed to `malloc` on line 205. -/
def HELLO_WORLD_SIZE : Nat := 1024

/-- Line 208: `const char *tt = (final_end) ? "true" : "false";`. -/
def tt (g : Shared) : String :=
  if g.final_end ≠ 0 then "true" else "false"

/-- Line 211: the payload written into `hello_world`; the `uint8_t` arguments
are promoted to `int`. -/
def hello_world (g : Shared) : String :=
  sprintf PATCH_FORMAT
    [FmtArg.str (tt g), FmtArg.int (Int.ofNat g.final_pression), FmtArg.int (Int.ofNat g.final_rpm)]

/-- Number of bytes `sprintf` stores for a string: its bytes and the NUL. -/
def bytesWritten (s : String) : Nat := s.utf8ByteSize + 1

/-- Local variables of `pheriperals_handle` and the global it writes. -/
structure RpmState where
  last_pin_value : Bool
  pin_count : Nat
  last_time : Nat
  final_rpm : Nat
  deriving DecidableEq, Repr

/-- What one loop iteration reads from the hardware: the level of `GPIO_RPM`
(line 235; `gpio_get_level` returns 0 or 1, so the `int8_t` copies are `Bool`)
and the values `esp_timer_get_time()` returns on lines 240 and 245, in
microseconds, should the iteration get there. -/
structure RpmSample where
  pin : Bool
  now_elapsed : Nat
  now_stamp : Nat
  deriving DecidableEq, Repr

/-- The values computed at a threshold crossing: `one_rot` (line 240), `rpm`
(line 241, logged on line 243) and the value line 242 stores in `final_rpm`. -/
structure Crossing where
  one_rot : Int
  rpm : Int
  final_rpm : Nat
  deriving DecidableEq, Repr

/-- Line 240: `int32_t one_rot = (esp_timer_get_time() - last_time) / 1000;`
the subtraction and the division are done in `uint64_t`. -/
def one_rot (now last_time : Nat) : Int :=
  toInt32 (Int.ofNat (toUInt64 (Int.ofNat (toUInt64 (Int.ofNat now)) - Int.ofNat last_time) / 1000))

/-- State at task start: lines 230-232, `level` being the first read of the pin. -/
def rpm_init (level : Bool) : RpmState :=
  { last_pin_value := level, pin_count := 0, last_time := 0, final_rpm := 0 }

/-- One iteration of the `while(true)` of `pheriperals_handle` (lines 235-250).
`none` is the division by zero on line 241. The second component is the
crossing, when the iteration stored `final_rpm`. -/
def pheriperals_handle_iter (st : RpmState) (s : RpmSample) :
    Option (RpmState × Option Crossing) :=
  if s.pin ≠ st.last_pin_value then
    let pin_count := (st.pin_count + 1) % 256
    if pin_count = 30 then
      let e := one_rot s.now_elapsed st.last_time
      if e = 0 then
        none
      else
        let rpm := Int.tdiv 60000 e
        some ({ last_pin_value := s.pin
                pin_count := 0
                last_time := toUInt64 (Int.ofNat s.now_stamp)
                final_rpm := toUInt8 rpm },
              some { one_rot := e, rpm := rpm, final_rpm := toUInt8 rpm })
    else
      some ({ st with last_pin_value := s.pin, pin_count := pin_count }, none)
  else
    some (st, none)

/-- The sampler loop run over a finite sequence of iterations: the final state
and, per iteration, the crossing if `final_rpm` was written. -/
def pheriperals_handle_loop : RpmState → List RpmSample →
    Option (RpmState × List (Option Crossing))
  | st, [] => some (st, [])
  | st, s :: rest =>
    match pheriperals_handle_iter st s with
    | none => none
    | some (st', ev) =>
      match pheriperals_handle_loop st' rest with
      | none => none
      | some (st'', evs) => some (st'', ev :: evs)

/-- The task from its start: first read of the pin, then the loop. -/
def pheriperals_handle (level : Bool) (samples : List RpmSample) :
    Option (RpmState × List (Option Crossing)) :=
  pheriperals_handle_loop (rpm_init level) samples

/-! ## Analog Sampler: `adc_read` -/

/-- Multisampling count. -/
def NO_OF_SAMPLES : Nat := 64

/-- Lines 257-261: the `uint32_t` accumulator after `n` iterations of the
`for` loop, `adc1_get_raw i` being the `int` returned by the call number `i`. -/
def adc_accumulate (adc1_get_raw : Nat → Int) : Nat → Nat
  | 0 => 0
  | n + 1 => toUInt32 (Int.ofNat (adc_accumulate adc1_get_raw n) + adc1_get_raw n)

/-- Lines 257-262: `adc_reading` after `adc_reading /= NO_OF_SAMPLES`. -/
def adc_reading (adc1_get_raw : Nat → Int) : Nat :=
  adc_accumulate adc1_get_raw NO_OF_SAMPLES / NO_OF_SAMPLES

/-- Line 266: `final_pression = (100/4095) * adc_reading;` the quotient is an
`int` constant, the product is `uint32_t`, the store converts to `uint8_t`. -/
def pression_of (adc_reading : Nat) : Nat :=
  toUInt8 (Int.ofNat (toUInt32 (Int.ofNat ((100 / 4095) * adc_reading))))

/-- The `ESP_LOGI` output of one tick of `adc_read`. -/
structure AdcLog where
  raw : Nat
  voltage : Nat
  fim_de_curso : Nat
  deriving DecidableEq, Repr

/-- One iteration of the `while(true)` of `adc_read` (lines 257-268):
`raw_to_voltage` stands for `esp_adc_cal_raw_to_voltage(·, adc_chars)` and
`end_level` for `gpio_get_level(GPIO_END)`. -/
def adc_read_tick (g : Shared) (adc1_get_raw : Nat → Int) (raw_to_voltage : Nat → Nat)
    (end_level : Bool) : Shared × AdcLog :=
  let r := adc_reading adc1_get_raw
  let voltage := raw_to_voltage r
  let final_end := if end_level then 1 else 0
  let final_pression := pression_of r
  ({ g with final_end := final_end, final_pression := final_pression },
   { raw := r, voltage := voltage, fim_de_curso := final_end })

/-! ## Reference notions used in the statements -/

/-- For each sample, whether it differs from the level sampled before it. -/
def levelChanges : Bool → List Bool → List Bool
  | _, [] => []
  | prev, x :: xs => (x != prev) :: levelChanges x xs

/-- Number of level changes in a sequence of samples. -/
def changeCount (prev : Bool) (xs : List Bool) : Nat :=
  (levelChanges prev xs).count true

/-- Number of iterations of a run that stored `final_rpm`. -/
def writeCount (evs : List (Option Crossing)) : Nat :=
  (evs.filter Option.isSome).length

/-- Integer-truncated mean of the first `n` readings. -/
def truncatedMean (raw : Nat → Int) (n : Nat) : Int :=
  ((List.range n).map raw).sum / Int.ofNat n

/-- The payload as the specification words it: no blank after the colons. -/
def claimedPayload (g : Shared) : String :=
  "\x7b\"fleet\":4200,\"model\":\"HidroROLL\",\"lat\":0,\"lng\":0,\"engaged\":"
    ++ (if g.final_end ≠ 0 then "true" else "false")
    ++ ",\"pression\":" ++ toString g.final_pression
    ++ ",\"speed\":" ++ toString g.final_rpm
    ++ ",\"op\":6656,\"group\":1\x7d"

/-- Timing assumption on a run: the readings of an iteration are ordered and
below 2^31 ms, and the first is at least `prev`; the next iteration starts at
least 10 ms (10000 microseconds) after the last reading of this one. -/
def Spaced : Nat → List RpmSample → Prop
  | _, [] => True
  | prev, s :: rest =>
    prev ≤ s.now_elapsed ∧ s.now_elapsed ≤ s.now_stamp ∧ s.now_stamp < 2147483648000 ∧
      Spaced (s.now_stamp + 10000) rest

instance Spaced.decidable : (prev : Nat) → (samples : List RpmSample) →
    Decidable (Spaced prev samples)
  | _, [] => isTrue trivial
  | prev, s :: rest =>
    have := Spaced.decidable (s.now_stamp + 10000) rest
    inferInstanceAs (Decidable (prev ≤ s.now_elapsed ∧ s.now_elapsed ≤ s.now_stamp ∧
      s.now_stamp < 2147483648000 ∧ Spaced (s.now_stamp + 10000) rest))

/-- A run of 61 iterations, a little over 10 ms apart, the pin toggling at
every one of them. -/
def toggleRun : List RpmSample :=
  (List.range 61).map fun i =>
    { pin := i % 2 == 0, now_elapsed := 10010 * (i + 1), now_stamp := 10010 * (i + 1) + 5 }

/-- What the loop returns on `toggleRun` from a low pin. -/
def toggleResult : RpmState × List (Option Crossing) :=
  ({ last_pin_value := true, pin_count := 1, last_time := 600605, final_rpm := 200 },
   List.replicate 29 none ++ [some { one_rot := 300, rpm := 200, final_rpm := 200 }]
     ++ List.replicate 29 none ++ [some { one_rot := 300, rpm := 200, final_rpm := 200 }]
     ++ [none])

/-- A run of 30 toggling iterations 3 ms apart; the 30th is 100 ms after time 0. -/
def fastRun : List RpmSample :=
  (List.range 30).map fun i =>
    { pin := i % 2 == 0, now_elapsed := 3000 * (i + 1) + 10000, now_stamp := 3000 * (i + 1) + 10005 }

/-- A run of 30 toggling iterations 20 microseconds apart, readings increasing. -/
def burstRun : List RpmSample :=
  (List.range 30).map fun i =>
    { pin := i % 2 == 0, now_elapsed := 20 * i + 10, now_stamp := 20 * i + 15 }

/-- A state one level change before the threshold, last crossing at 1 s. -/
def beforeCrossing : RpmState :=
  { last_pin_value := false, pin_count := 29, last_time := 1000000, final_rpm := 0 }

/-- Readings that climb from 0 to 4095 in steps of 65. -/
def rampRaw : Nat → Int := fun i => Int.ofNat (65 * i)

/-- The timer readings of a run, in the order in which they are taken. -/
def timerReadings : List RpmSample → List Nat
  | [] => []
  | s :: rest => s.now_elapsed :: s.now_stamp :: timerReadings rest

/-- Whether a sequence of timer readings never goes back. -/
def nonDecreasing : List Nat → Bool
  | a :: b :: rest => decide (a ≤ b) && nonDecreasing (b :: rest)
  | _ => true

/-- A crossing computed from an elapsed time of at least 290 ms: the quotient
is at most 206 and `final_rpm` holds it without truncation. -/
def GoodCrossing (c : Crossing) : Prop :=
  290 ≤ c.one_rot ∧ c.rpm = 60000 / c.one_rot ∧ c.rpm ≤ 206 ∧ (c.final_rpm : Int) = c.rpm

end Telemetry

namespace Telemetry

set_option maxRecDepth 100000

/-! ## Status Publisher -/

theorem vsprintf_patch (e : String) (p s : Int) :
    vsprintf PATCH_FORMAT.data [FmtArg.str e, FmtArg.int p, FmtArg.int s] =
      "\x7b\"fleet\": 4200,\"model\": \"HidroROLL\",\"lat\": 0,\"lng\": 0,\"engaged\": ".data
        ++ e.data ++ ",\"pression\": ".data ++ (toString p).data
        ++ ",\"speed\": ".data ++ (toString s).data
        ++ ",\"op\": 6656,\"group\": 1\x7d".data := by
  simp [vsprintf, PATCH_FORMAT]

theorem bytesWritten_sprintf_patch (e : String) (p s : Int) :
    bytesWritten (sprintf PATCH_FORMAT [FmtArg.str e, FmtArg.int p, FmtArg.int s]) =
      112 + e.utf8ByteSize + (toString p).utf8ByteSize + (toString s).utf8ByteSize := by
  have e1 : String.utf8Len
      "\x7b\"fleet\": 4200,\"model\": \"HidroROLL\",\"lat\": 0,\"lng\": 0,\"engaged\": ".data = 65 := by
    decide
  have e2 : String.utf8Len ",\"pression\": ".data = 13 := by decide
  have e3 : String.utf8Len ",\"speed\": ".data = 10 := by decide
  have e4 : String.utf8Len ",\"op\": 6656,\"group\": 1\x7d".data = 23 := by decide
  rw [bytesWritten, sprintf, vsprintf_patch, String.utf8ByteSize_mk]
  rw [String.utf8Len_append, String.utf8Len_append, String.utf8Len_append, String.utf8Len_append,
    String.utf8Len_append, String.utf8Len_append, e1, e2, e3, e4]
  have h1 : String.utf8Len e.data = e.utf8ByteSize := rfl
  have h2 : String.utf8Len (toString p).data = (toString p).utf8ByteSize := rfl
  have h3 : String.utf8Len (toString s).data = (toString s).utf8ByteSize := rfl
  omega

theorem utf8ByteSize_uint8 :
    ∀ n : Fin 256, (toString (Int.ofNat n.val)).utf8ByteSize ≤ 3 := by
  decide

theorem utf8ByteSize_tt (g : Shared) : (tt g).utf8ByteSize ≤ 5 := by
  unfold tt; split <;> decide

theorem bytesWritten_le (g : Shared) (h : g.InRange) : bytesWritten (hello_world g) ≤ 123 := by
  obtain ⟨h1, h2, _⟩ := h
  have hp := utf8ByteSize_uint8 ⟨g.final_pression, h2⟩
  have hs := utf8ByteSize_uint8 ⟨g.final_rpm, h1⟩
  have ht := utf8ByteSize_tt g
  rw [hello_world, bytesWritten_sprintf_patch]
  simp only at hp hs
  omega

/-- C1 (refuted as stated): with `final_end = 1`, `final_pression = 42` and
`final_rpm = 150` the payload is not the string without blanks that the claim
gives, and the firmware's string for the claim's own values (42, 1500) is not
the claimed one either. -/
theorem hello_world_ne_claimed :
    hello_world { final_rpm := 150, final_pression := 42, final_end := 1 } ≠
        claimedPayload { final_rpm := 150, final_pression := 42, final_end := 1 } ∧
      hello_world { final_rpm := 1500, final_pression := 42, final_end := 1 } ≠
        "\x7b\"fleet\":4200,\"model\":\"HidroROLL\",\"lat\":0,\"lng\":0,\"engaged\":true,\"pression\":42,\"speed\":1500,\"op\":6656,\"group\":1\x7d" := by
  decide

/-- C1 (amended): for every shared state the payload built by one tick is the
format string of line 211 filled in, that is, with one blank after every
colon: `engaged` is `true` when `final_end` is non-zero and `false` otherwise,
`pression` and `speed` are the decimal renderings of `final_pression` and
`final_rpm`; for `final_end = 1`, `final_pression = 42`, `final_rpm = 220` it
is the literal given. -/
theorem hello_world_payload (g : Shared) :
    hello_world g =
        "\x7b\"fleet\": 4200,\"model\": \"HidroROLL\",\"lat\": 0,\"lng\": 0,\"engaged\": "
          ++ (if g.final_end ≠ 0 then "true" else "false")
          ++ ",\"pression\": " ++ toString g.final_pression
          ++ ",\"speed\": " ++ toString g.final_rpm
          ++ ",\"op\": 6656,\"group\": 1\x7d" ∧
      hello_world { final_rpm := 220, final_pression := 42, final_end := 1 } =
        "\x7b\"fleet\": 4200,\"model\": \"HidroROLL\",\"lat\": 0,\"lng\": 0,\"engaged\": true,\"pression\": 42,\"speed\": 220,\"op\": 6656,\"group\": 1\x7d" := by
  refine ⟨?_, by decide⟩
  apply String.ext
  simp only [hello_world, sprintf, vsprintf_patch, tt, String.data_append]
  rfl

/-- C9: for 8-bit values of the three shared variables, the bytes that
`sprintf` stores in `hello_world`, the terminating NUL included, are at most
123 and so fewer than the 1024 allocated. -/
theorem hello_world_fits (g : Shared) (h : g.InRange) :
    bytesWritten (hello_world g) ≤ 123 ∧ bytesWritten (hello_world g) < HELLO_WORLD_SIZE := by
  have hb := bytesWritten_le g h
  refine ⟨hb, ?_⟩
  unfold HELLO_WORLD_SIZE
  omega

/-- Witness of C9 at the longest payload: `false`, 255 and 255. -/
theorem hello_world_fits_witness :
    bytesWritten (hello_world { final_rpm := 255, final_pression := 255, final_end := 0 }) ≤ 123 ∧
      bytesWritten (hello_world { final_rpm := 255, final_pression := 255, final_end := 0 })
        < HELLO_WORLD_SIZE :=
  hello_world_fits { final_rpm := 255, final_pression := 255, final_end := 0 } (by decide)

theorem changeCount_nil (prev : Bool) : changeCount prev [] = 0 := rfl

theorem changeCount_cons (prev x : Bool) (xs : List Bool) :
    changeCount prev (x :: xs) = (if x = prev then 0 else 1) + changeCount x xs := by
  unfold changeCount
  rw [levelChanges, List.count_cons]
  by_cases h : x = prev
  · simp [h]
  · simp [h]; omega

theorem writeCount_cons (ev : Option Crossing) (evs : List (Option Crossing)) :
    writeCount (ev :: evs) = (if ev.isSome = true then 1 else 0) + writeCount evs := by
  unfold writeCount
  cases ev
  · simp [List.filter_cons]
  · simp [List.filter_cons]; omega

theorem iter_same (st : RpmState) (s : RpmSample) (h : s.pin = st.last_pin_value) :
    pheriperals_handle_iter st s = some (st, none) := by
  simp [pheriperals_handle_iter, h]

theorem iter_change (st : RpmState) (s : RpmSample) (h : s.pin ≠ st.last_pin_value)
    (hc : st.pin_count < 29) :
    pheriperals_handle_iter st s =
      some ({ st with last_pin_value := s.pin, pin_count := st.pin_count + 1 }, none) := by
  have h1 : (st.pin_count + 1) % 256 = st.pin_count + 1 := by omega
  have h2 : st.pin_count + 1 ≠ 30 := by omega
  simp [pheriperals_handle_iter, h, h1, h2]

theorem iter_cross (st : RpmState) (s : RpmSample) (h : s.pin ≠ st.last_pin_value)
    (hc : st.pin_count = 29) (hz : one_rot s.now_elapsed st.last_time ≠ 0) :
    pheriperals_handle_iter st s =
      some ({ last_pin_value := s.pin
              pin_count := 0
              last_time := toUInt64 (Int.ofNat s.now_stamp)
              final_rpm := toUInt8 (Int.tdiv 60000 (one_rot s.now_elapsed st.last_time)) },
            some { one_rot := one_rot s.now_elapsed st.last_time
                   rpm := Int.tdiv 60000 (one_rot s.now_elapsed st.last_time)
                   final_rpm := toUInt8 (Int.tdiv 60000 (one_rot s.now_elapsed st.last_time)) }) := by
  simp [pheriperals_handle_iter, h, hc, hz]

theorem iter_cross_some (st : RpmState) (s : RpmSample) (h : s.pin ≠ st.last_pin_value)
    (hc : st.pin_count = 29) (hz : one_rot s.now_elapsed st.last_time ≠ 0) :
    ∃ st1 c, pheriperals_handle_iter st s = some (st1, some c) ∧
      st1.last_pin_value = s.pin ∧ st1.pin_count = 0 ∧
      st1.last_time = toUInt64 (Int.ofNat s.now_stamp) ∧
      st1.final_rpm = toUInt8 (Int.tdiv 60000 (one_rot s.now_elapsed st.last_time)) ∧
      c.one_rot = one_rot s.now_elapsed st.last_time ∧
      c.rpm = Int.tdiv 60000 (one_rot s.now_elapsed st.last_time) ∧
      c.final_rpm = st1.final_rpm := by
  have hi := iter_cross st s h hc hz
  generalize toUInt8 (Int.tdiv 60000 (one_rot s.now_elapsed st.last_time)) = v at hi ⊢
  generalize Int.tdiv 60000 (one_rot s.now_elapsed st.last_time) = q at hi ⊢
  generalize one_rot s.now_elapsed st.last_time = e at hi ⊢
  generalize toUInt64 (Int.ofNat s.now_stamp) = t at hi ⊢
  exact ⟨_, _, hi, rfl, rfl, rfl, rfl, rfl, rfl, rfl⟩

theorem iter_cross_zero (st : RpmState) (s : RpmSample) (h : s.pin ≠ st.last_pin_value)
    (hc : st.pin_count = 29) (hz : one_rot s.now_elapsed st.last_time = 0) :
    pheriperals_handle_iter st s = none := by
  simp [pheriperals_handle_iter, h, hc, hz]

theorem iter_eq_none_iff (st : RpmState) (s : RpmSample) :
    pheriperals_handle_iter st s = none ↔
      (s.pin ≠ st.last_pin_value ∧ (st.pin_count + 1) % 256 = 30 ∧
        one_rot s.now_elapsed st.last_time = 0) := by
  unfold pheriperals_handle_iter
  by_cases h : s.pin = st.last_pin_value
  · simp [h]
  · by_cases h30 : (st.pin_count + 1) % 256 = 30
    · by_cases hz : one_rot s.now_elapsed st.last_time = 0
      · simp [h, h30, hz]
      · simp [h, h30, hz]
    · simp [h, h30]

theorem iter_spec (st st1 : RpmState) (s : RpmSample) (ev : Option Crossing)
    (hc : st.pin_count ≤ 29) (hi : pheriperals_handle_iter st s = some (st1, ev)) :
    st1.last_pin_value = s.pin ∧
      st1.pin_count = (st.pin_count + (if s.pin = st.last_pin_value then 0 else 1)) % 30 ∧
      (ev.isSome = true ↔ (s.pin ≠ st.last_pin_value ∧ st.pin_count = 29)) := by
  by_cases h : s.pin = st.last_pin_value
  · rw [iter_same st s h] at hi
    cases hi
    simp [h]
    omega
  · rcases Nat.lt_or_eq_of_le hc with h29 | h29
    · rw [iter_change st s h h29] at hi
      cases hi
      simp [h]
      omega
    · by_cases hz : one_rot s.now_elapsed st.last_time = 0
      · rw [iter_cross_zero st s h h29 hz] at hi
        cases hi
      · rw [iter_cross st s h h29 hz] at hi
        cases hi
        simp [h, h29]

theorem loop_cons_some (st st' : RpmState) (s : RpmSample) (rest : List RpmSample)
    (evs : List (Option Crossing))
    (h : pheriperals_handle_loop st (s :: rest) = some (st', evs)) :
    ∃ st1 ev evs', pheriperals_handle_iter st s = some (st1, ev) ∧
      pheriperals_handle_loop st1 rest = some (st', evs') ∧ evs = ev :: evs' := by
  rw [pheriperals_handle_loop] at h
  cases hi : pheriperals_handle_iter st s with
  | none => rw [hi] at h; cases h
  | some p =>
    obtain ⟨st1, ev⟩ := p
    rw [hi] at h
    cases hl : pheriperals_handle_loop st1 rest with
    | none => simp only [hl] at h; cases h
    | some q =>
      obtain ⟨st2, evs'⟩ := q
      simp only [hl, Option.some.injEq, Prod.mk.injEq] at h
      obtain ⟨rfl, rfl⟩ := h
      exact ⟨st1, ev, evs', rfl, hl, rfl⟩

theorem loop_spec (samples : List RpmSample) :
    ∀ (st st' : RpmState) (evs : List (Option Crossing)), st.pin_count ≤ 29 →
      pheriperals_handle_loop st samples = some (st', evs) →
      st'.pin_count =
          (st.pin_count + changeCount st.last_pin_value (samples.map RpmSample.pin)) % 30 ∧
        evs.length = samples.length ∧
        writeCount evs =
          (st.pin_count + changeCount st.last_pin_value (samples.map RpmSample.pin)) / 30 ∧
        ∀ i, ((evs.getD i none).isSome = true ↔
          ((levelChanges st.last_pin_value (samples.map RpmSample.pin)).getD i false = true ∧
            (st.pin_count +
              changeCount st.last_pin_value ((samples.map RpmSample.pin).take (i + 1))) % 30
              = 0)) := by
  induction samples with
  | nil =>
    intro st st' evs hc h
    simp only [pheriperals_handle_loop, Option.some.injEq, Prod.mk.injEq] at h
    obtain ⟨rfl, rfl⟩ := h
    simp [changeCount_nil, writeCount, levelChanges]
    omega
  | cons s rest ih =>
    intro st st' evs hc h
    obtain ⟨st1, ev, evs', hi, hl, rfl⟩ := loop_cons_some st st' s rest evs h
    obtain ⟨hp, hcnt, hev⟩ := iter_spec st st1 s ev hc hi
    have hc1 : st1.pin_count ≤ 29 := by omega
    obtain ⟨i1, i2, i3, i4⟩ := ih st1 st' evs' hc1 hl
    rw [hp] at i1 i3 i4
    simp only [List.map_cons, changeCount_cons, List.length_cons]
    refine ⟨by omega, by omega, ?_, ?_⟩
    · rw [writeCount_cons, i3]
      by_cases hx : s.pin = st.last_pin_value
      · have hne : ¬ (ev.isSome = true) := by rw [hev]; exact fun h => h.1 hx
        rw [if_neg hne]
        rw [if_pos hx] at hcnt ⊢
        omega
      · by_cases h29 : st.pin_count = 29
        · have hne : ev.isSome = true := by rw [hev]; exact ⟨hx, h29⟩
          rw [if_pos hne]
          rw [if_neg hx] at hcnt ⊢
          omega
        · have hne : ¬ (ev.isSome = true) := by rw [hev]; exact fun h => h29 h.2
          rw [if_neg hne]
          rw [if_neg hx] at hcnt ⊢
          omega
    · intro i
      cases i with
      | zero =>
        simp only [List.getD_cons_zero, levelChanges, List.take_succ_cons, List.take_zero, zero_add,
          changeCount_cons, changeCount_nil]
        rw [hev]
        by_cases hx : s.pin = st.last_pin_value
        · simp [hx]
        · simp [hx]; omega
      | succ j =>
        simp only [List.getD_cons_succ, levelChanges, List.take_succ_cons, changeCount_cons]
        rw [i4 j]
        apply and_congr Iff.rfl
        by_cases hx : s.pin = st.last_pin_value
        · rw [if_pos hx] at hcnt ⊢
          omega
        · rw [if_neg hx] at hcnt ⊢
          omega


theorem loop_cons_of (st st1 st' : RpmState) (s : RpmSample) (rest : List RpmSample)
    (ev : Option Crossing) (evs' : List (Option Crossing))
    (hi : pheriperals_handle_iter st s = some (st1, ev))
    (hl : pheriperals_handle_loop st1 rest = some (st', evs')) :
    pheriperals_handle_loop st (s :: rest) = some (st', ev :: evs') := by
  rw [pheriperals_handle_loop, hi]
  simp only [hl]

theorem toInt32_eq (z : Int) (h1 : 0 ≤ z) (h2 : z < 2147483648) : toInt32 z = z := by
  unfold toInt32
  split <;> omega

theorem toInt32_eq_zero_iff (z : Int) : toInt32 z = 0 ↔ z % 4294967296 = 0 := by
  unfold toInt32
  split <;> omega

theorem one_rot_eq (now last_time : Nat) (h1 : last_time ≤ now)
    (h2 : now < 18446744073709551616) :
    one_rot now last_time = toInt32 (((now - last_time : Nat) : Int) / 1000) := by
  unfold one_rot toUInt64
  simp only [Int.ofNat_eq_coe]
  congr 1
  omega

theorem toUInt64_eq (n : Nat) (h : n < 18446744073709551616) : toUInt64 (Int.ofNat n) = n := by
  unfold toUInt64
  simp only [Int.ofNat_eq_coe]
  omega

theorem quotient_le (e : Int) (k q : Int) (hk : 0 < k) (he : k ≤ e) (hq : 60000 < (q + 1) * k) :
    0 ≤ (60000 : Int) / e ∧ (60000 : Int) / e ≤ q := by
  have hpos : 0 < e := by omega
  have hne : e ≠ 0 := by omega
  have h1 := Int.ediv_mul_le 60000 hne
  have h0 : 0 ≤ (60000 : Int) / e := Int.ediv_nonneg (by norm_num) (by omega)
  refine ⟨h0, ?_⟩
  by_contra hgt
  have h2 : q + 1 ≤ (60000 : Int) / e := by omega
  have h3 : (q + 1) * k ≤ (60000 : Int) / e * e := by
    apply mul_le_mul h2 he (by omega) h0
  omega

theorem tdiv_eq (e : Int) (he : 0 < e) : Int.tdiv 60000 e = 60000 / e :=
  Int.tdiv_eq_ediv (by norm_num) (by omega)

theorem one_rot_spaced (now last_time : Nat) (h1 : last_time ≤ now) (h2 : now < 2147483648000) :
    one_rot now last_time = ((now - last_time : Nat) : Int) / 1000 := by
  rw [one_rot_eq _ _ h1 (by omega), toInt32_eq _ (by omega) (by omega)]

theorem toUInt8_eq (q : Int) (h0 : 0 ≤ q) (h1 : q ≤ 255) : (toUInt8 q : Int) = q := by
  unfold toUInt8
  omega

theorem toUInt8_mod (q : Int) : (toUInt8 q : Int) = q % 256 := by
  unfold toUInt8
  omega

theorem crossing_values (e : Int) (hlo : 290 ≤ e) :
    Int.tdiv 60000 e = 60000 / e ∧ (60000 : Int) / e ≤ 206 ∧
      (toUInt8 (Int.tdiv 60000 e) : Int) = 60000 / e ∧ toUInt8 (Int.tdiv 60000 e) ≤ 206 := by
  have hq := quotient_le e 290 206 (by norm_num) hlo (by norm_num)
  have ht := tdiv_eq e (lt_of_lt_of_le (by norm_num) hlo)
  have hu := toUInt8_eq _ hq.1 (le_trans hq.2 (by norm_num))
  rw [ht]
  refine ⟨rfl, hq.2, hu, ?_⟩
  have h206 := hq.2
  generalize (60000 : Int) / e = q at hu h206
  generalize toUInt8 q = v at hu
  omega

theorem iter_spaced (st : RpmState) (s : RpmSample) (prev : Nat)
    (h1 : prev ≤ s.now_elapsed) (h2 : s.now_elapsed ≤ s.now_stamp)
    (h3 : s.now_stamp < 2147483648000) (hc : st.pin_count ≤ 29)
    (hinv : st.last_time + 10000 * st.pin_count ≤ prev) (hf : st.final_rpm ≤ 206) :
    ∃ st1 ev, pheriperals_handle_iter st s = some (st1, ev) ∧ st1.pin_count ≤ 29 ∧
      st1.last_time + 10000 * st1.pin_count ≤ s.now_stamp + 10000 ∧ st1.final_rpm ≤ 206 ∧
      ∀ c, ev = some c → GoodCrossing c := by
  by_cases hx : s.pin = st.last_pin_value
  · exact ⟨st, none, iter_same st s hx, hc, by omega, hf, fun c h => by cases h⟩
  · rcases Nat.lt_or_eq_of_le hc with h29 | h29
    · refine ⟨_, none, iter_change st s hx h29, ?_, ?_, hf, fun c h => by cases h⟩
      · show st.pin_count + 1 ≤ 29
        omega
      · show st.last_time + 10000 * (st.pin_count + 1) ≤ s.now_stamp + 10000
        omega
    · have he := one_rot_spaced s.now_elapsed st.last_time (by omega) (by omega)
      have hlo : 290 ≤ one_rot s.now_elapsed st.last_time := by rw [he]; omega
      have hz : one_rot s.now_elapsed st.last_time ≠ 0 := by omega
      have hstamp : toUInt64 (Int.ofNat s.now_stamp) = s.now_stamp :=
        toUInt64_eq _ (by omega)
      obtain ⟨st1, c1, hi, -, hpc, hlt, hfr, hco, hcr, hcf⟩ := iter_cross_some st s hx h29 hz
      obtain ⟨ht, hq, hu, hv⟩ := crossing_values _ hlo
      rw [hstamp] at hlt
      refine ⟨st1, some c1, hi, ?_, ?_, hfr ▸ hv, ?_⟩
      · rw [hpc]; norm_num
      · rw [hpc, hlt]; norm_num
      · intro c hc'
        have hcc := Option.some.inj hc'
        subst hcc
        unfold GoodCrossing
        rw [hco, hcr, hcf, hfr]
        exact ⟨hlo, ht, le_of_eq_of_le ht hq, hu.trans ht.symm⟩

theorem loop_spaced (samples : List RpmSample) :
    ∀ (st : RpmState) (prev : Nat), Spaced prev samples → st.pin_count ≤ 29 →
      st.last_time + 10000 * st.pin_count ≤ prev → st.final_rpm ≤ 206 →
      ∃ st' evs, pheriperals_handle_loop st samples = some (st', evs) ∧ st'.final_rpm ≤ 206 ∧
        ∀ c, some c ∈ evs → GoodCrossing c := by
  induction samples with
  | nil =>
    intro st prev _ _ _ hf
    exact ⟨st, [], rfl, hf, by simp⟩
  | cons s rest ih =>
    intro st prev hsp hc hinv hf
    obtain ⟨h1, h2, h3, h4⟩ := hsp
    obtain ⟨st1, ev, hi, hc1, hinv1, hf1, hgood⟩ := iter_spaced st s prev h1 h2 h3 hc hinv hf
    obtain ⟨st', evs, hl, hf', hev⟩ := ih st1 (s.now_stamp + 10000) h4 hc1 hinv1 hf1
    refine ⟨st', ev :: evs, loop_cons_of _ _ _ _ _ _ _ hi hl, hf', ?_⟩
    intro c hmem
    simp only [List.mem_cons] at hmem
    rcases hmem with hmem | hmem
    · exact hgood c hmem.symm
    · exact hev c hmem

/-- C2: in a run of the sampler loop from its start in which no crossing
divides by zero (every elapsed time is non-zero, so the loop returns), there
is one result per sample, `final_rpm` is stored exactly
`floor(n / 30)` times, `n` being the number of level changes, and sample `i`
stores it exactly when it is a level change and the number of level changes
among samples `0..i` is a multiple of 30 (the 30th, 60th, 90th, ... change). -/
theorem writes_once_per_thirty (level : Bool) (samples : List RpmSample) (st : RpmState)
    (evs : List (Option Crossing))
    (hrun : pheriperals_handle level samples = some (st, evs)) :
    evs.length = samples.length ∧
      writeCount evs = changeCount level (samples.map RpmSample.pin) / 30 ∧
      ∀ i, ((evs.getD i none).isSome = true ↔
        ((levelChanges level (samples.map RpmSample.pin)).getD i false = true ∧
          changeCount level ((samples.map RpmSample.pin).take (i + 1)) % 30 = 0)) := by
  have h := loop_spec samples (rpm_init level) st evs (Nat.zero_le 29) hrun
  have h0 : (rpm_init level).pin_count = 0 := rfl
  have hl : (rpm_init level).last_pin_value = level := rfl
  rw [h0, hl] at h
  simp only [Nat.zero_add] at h
  exact ⟨h.2.1, h.2.2.1, h.2.2.2⟩

/-- Witness of C2: 61 toggling samples, `final_rpm` stored twice. -/
theorem writes_once_per_thirty_witness :
    pheriperals_handle false toggleRun = some (toggleResult.1, toggleResult.2) ∧
      toggleResult.2.length = toggleRun.length ∧
      writeCount toggleResult.2 = changeCount false (toggleRun.map RpmSample.pin) / 30 :=
  ⟨by decide,
    (writes_once_per_thirty false toggleRun toggleResult.1 toggleResult.2 (by decide)).1,
    (writes_once_per_thirty false toggleRun toggleResult.1 toggleResult.2 (by decide)).2.1⟩

/-- C3 (refuted as stated): on 30 level changes with strictly increasing timer
readings that stay below 1 ms the loop divides by zero. -/
theorem burst_divides_by_zero :
    nonDecreasing (timerReadings burstRun) = true ∧
      pheriperals_handle false burstRun = none := by
  decide

/-- C3 (amended): at a threshold crossing whose timer reading `now` is not
before the recorded `last_time`, the division takes its error branch exactly
when `floor((now - last_time) / 1000)` is a multiple of 2^32; so the divisor
is non-zero, and the iteration completes, whenever
`1000 ≤ now - last_time < 2^32 * 1000` microseconds. -/
theorem divisor_zero_iff (st : RpmState) (s : RpmSample)
    (hchg : s.pin ≠ st.last_pin_value) (hcnt : st.pin_count = 29)
    (hlast : st.last_time ≤ s.now_elapsed) (hnow : s.now_elapsed < 9223372036854775808) :
    (pheriperals_handle_iter st s = none ↔
        (s.now_elapsed - st.last_time) / 1000 % 4294967296 = 0) ∧
      (st.last_time + 1000 ≤ s.now_elapsed → s.now_elapsed < st.last_time + 4294967296000 →
        one_rot s.now_elapsed st.last_time ≠ 0 ∧
          (pheriperals_handle_iter st s).isSome = true) := by
  have he := one_rot_eq s.now_elapsed st.last_time hlast (by omega)
  have hz : one_rot s.now_elapsed st.last_time = 0 ↔
      (s.now_elapsed - st.last_time) / 1000 % 4294967296 = 0 := by
    rw [he, toInt32_eq_zero_iff]
    omega
  have hnone : pheriperals_handle_iter st s = none ↔ one_rot s.now_elapsed st.last_time = 0 := by
    constructor
    · intro hn
      by_contra hne
      obtain ⟨st1, c, hi, -⟩ := iter_cross_some st s hchg hcnt hne
      rw [hn] at hi
      cases hi
    · exact iter_cross_zero st s hchg hcnt
  refine ⟨hnone.trans hz, ?_⟩
  intro hlo hhi
  have hne : one_rot s.now_elapsed st.last_time ≠ 0 := by
    rw [Ne, hz]
    omega
  obtain ⟨st1, c, hi, -⟩ := iter_cross_some st s hchg hcnt hne
  exact ⟨hne, by rw [hi]; rfl⟩

/-- Witness of C3 (amended): a crossing 100 ms after the previous one. -/
theorem divisor_zero_iff_witness :
    (pheriperals_handle_iter beforeCrossing
          { pin := true, now_elapsed := 1100000, now_stamp := 1100007 } = none ↔
        (1100000 - beforeCrossing.last_time) / 1000 % 4294967296 = 0) ∧
      (beforeCrossing.last_time + 1000 ≤ 1100000 →
        1100000 < beforeCrossing.last_time + 4294967296000 →
        one_rot 1100000 beforeCrossing.last_time ≠ 0 ∧
          (pheriperals_handle_iter beforeCrossing
            { pin := true, now_elapsed := 1100000, now_stamp := 1100007 }).isSome = true) :=
  divisor_zero_iff beforeCrossing { pin := true, now_elapsed := 1100000, now_stamp := 1100007 }
    (by decide) (by decide) (by decide) (by decide)

/-- C6 (refuted as stated): in a run whose 30th level change comes 100 ms
after time 0 the quotient is `60000 / 100 = 600` and `final_rpm` holds 88. -/
theorem fast_crossing_wraps :
    pheriperals_handle false fastRun =
        some ({ last_pin_value := false, pin_count := 0, last_time := 100005, final_rpm := 88 },
          List.replicate 29 none ++ [some { one_rot := 100, rpm := 600, final_rpm := 88 }]) ∧
      ((88 : Nat) : Int) ≠ 60000 / 100 := by
  decide

/-- C6 (amended): at a threshold crossing (a level change with `pin_count`
at 29) with `one_rot = e > 0`, the iteration completes, `final_rpm` becomes
`(60000 / e) mod 256`, which is `60000 / e` itself when `e ≥ 235`, `pin_count`
is reset to 0 and `last_time` becomes the timer reading of line 245. -/
theorem crossing_store (st : RpmState) (s : RpmSample)
    (hchg : s.pin ≠ st.last_pin_value) (hcnt : st.pin_count = 29)
    (he : 0 < one_rot s.now_elapsed st.last_time)
    (hstamp : s.now_stamp < 9223372036854775808) :
    ∃ st' c, pheriperals_handle_iter st s = some (st', some c) ∧
      c.one_rot = one_rot s.now_elapsed st.last_time ∧
      c.rpm = 60000 / one_rot s.now_elapsed st.last_time ∧
      c.final_rpm = st'.final_rpm ∧
      (st'.final_rpm : Int) = 60000 / one_rot s.now_elapsed st.last_time % 256 ∧
      (235 ≤ one_rot s.now_elapsed st.last_time →
        (st'.final_rpm : Int) = 60000 / one_rot s.now_elapsed st.last_time) ∧
      st'.pin_count = 0 ∧ st'.last_time = s.now_stamp := by
  obtain ⟨st1, c, hi, -, hpc, hlt, hfr, hco, hcr, hcf⟩ :=
    iter_cross_some st s hchg hcnt (ne_of_gt he)
  have hstamp' : toUInt64 (Int.ofNat s.now_stamp) = s.now_stamp := toUInt64_eq _ (by omega)
  have ht := tdiv_eq _ he
  rw [ht] at hfr hcr
  rw [hstamp'] at hlt
  refine ⟨st1, c, hi, hco, hcr, hcf, ?_, ?_, hpc, hlt⟩
  · rw [hfr]
    exact toUInt8_mod _
  · intro h235
    have hq := quotient_le _ 235 255 (by norm_num) h235 (by norm_num)
    rw [hfr]
    exact toUInt8_eq _ hq.1 hq.2

/-- Witness of C6 (amended): 100 ms after the previous crossing, 88 is stored. -/
theorem crossing_store_witness :
    ∃ st' c, pheriperals_handle_iter beforeCrossing
        { pin := true, now_elapsed := 1100000, now_stamp := 1100007 } = some (st', some c) ∧
      c.one_rot = one_rot 1100000 beforeCrossing.last_time ∧
      c.rpm = 60000 / one_rot 1100000 beforeCrossing.last_time ∧
      c.final_rpm = st'.final_rpm ∧
      (st'.final_rpm : Int) = 60000 / one_rot 1100000 beforeCrossing.last_time % 256 ∧
      (235 ≤ one_rot 1100000 beforeCrossing.last_time →
        (st'.final_rpm : Int) = 60000 / one_rot 1100000 beforeCrossing.last_time) ∧
      st'.pin_count = 0 ∧ st'.last_time = 1100007 :=
  crossing_store beforeCrossing { pin := true, now_elapsed := 1100000, now_stamp := 1100007 }
    (by decide) (by decide) (by decide) (by decide)

/-- C8: when every iteration starts at least 10 ms after the last timer
reading of the one before it, readings being ordered and below 2^31 ms, the
loop never divides by zero, and at every crossing `one_rot` is at least 290,
the quotient `60000 / one_rot` is at most 206 and `final_rpm` holds it
without truncation. -/
theorem spaced_run_exact (level : Bool) (samples : List RpmSample) (h : Spaced 0 samples) :
    ∃ st evs, pheriperals_handle level samples = some (st, evs) ∧ st.final_rpm ≤ 206 ∧
      ∀ c, some c ∈ evs →
        290 ≤ c.one_rot ∧ c.one_rot ≠ 0 ∧ c.rpm = 60000 / c.one_rot ∧ c.rpm ≤ 206 ∧
          (c.final_rpm : Int) = c.rpm := by
  obtain ⟨st, evs, hl, hf, hev⟩ :=
    loop_spaced samples (rpm_init level) 0 h (Nat.zero_le 29) (Nat.le_refl 0) (Nat.zero_le 206)
  refine ⟨st, evs, hl, hf, ?_⟩
  intro c hc
  obtain ⟨h1, h2, h3, h4⟩ := hev c hc
  exact ⟨h1, by omega, h2, h3, h4⟩

/-- Witness of C8: the 61 toggling samples are a little over 10 ms apart. -/
theorem spaced_run_exact_witness :
    Spaced 0 toggleRun ∧
      ∃ st evs, pheriperals_handle false toggleRun = some (st, evs) ∧ st.final_rpm ≤ 206 ∧
        ∀ c, some c ∈ evs →
          290 ≤ c.one_rot ∧ c.one_rot ≠ 0 ∧ c.rpm = 60000 / c.one_rot ∧ c.rpm ≤ 206 ∧
            (c.final_rpm : Int) = c.rpm :=
  ⟨by decide, spaced_run_exact false toggleRun (by decide)⟩

/-- C10: after any number of completed iterations from the start of the task
`pin_count` is at most 29, so the increment never wraps the 8-bit counter;
from such a state an iteration with an unchanged level changes nothing
(`pin_count`, `last_time` and `final_rpm` included), a level change below the
threshold adds exactly 1 to `pin_count`, and a level change at 29 resets it
to 0. -/
theorem pin_count_invariant (level : Bool) (samples : List RpmSample) (st : RpmState)
    (evs : List (Option Crossing))
    (hrun : pheriperals_handle level samples = some (st, evs)) :
    st.pin_count ≤ 29 ∧ st.pin_count + 1 < 256 ∧
      ∀ s : RpmSample,
        (s.pin = st.last_pin_value → pheriperals_handle_iter st s = some (st, none)) ∧
        (s.pin ≠ st.last_pin_value → st.pin_count < 29 →
          pheriperals_handle_iter st s =
            some ({ st with last_pin_value := s.pin, pin_count := st.pin_count + 1 }, none)) ∧
        (s.pin ≠ st.last_pin_value → st.pin_count = 29 →
          ∀ st' ev, pheriperals_handle_iter st s = some (st', ev) → st'.pin_count = 0) := by
  have h := (loop_spec samples (rpm_init level) st evs (Nat.zero_le 29) hrun).1
  have hle : st.pin_count ≤ 29 := by omega
  refine ⟨hle, by omega, ?_⟩
  intro s
  refine ⟨iter_same st s, iter_change st s, ?_⟩
  intro hchg h29 st' ev hi
  have hs := (iter_spec st st' s ev hle hi).2.1
  rw [if_neg hchg, h29] at hs
  exact hs

/-- Witness of C10: the state after the 61 toggling samples. -/
theorem pin_count_invariant_witness :
    pheriperals_handle false toggleRun = some (toggleResult.1, toggleResult.2) ∧
      toggleResult.1.pin_count ≤ 29 ∧ toggleResult.1.pin_count + 1 < 256 :=
  ⟨by decide,
    (pin_count_invariant false toggleRun toggleResult.1 toggleResult.2 (by decide)).1,
    (pin_count_invariant false toggleRun toggleResult.1 toggleResult.2 (by decide)).2.1⟩


/-! ## Analog Sampler -/

theorem toUInt32_eq (z : Int) (h0 : 0 ≤ z) (h1 : z < 4294967296) : (toUInt32 z : Int) = z := by
  unfold toUInt32
  omega

theorem adc_accumulate_eq (raw : Nat → Int) (h : ∀ i, i < 64 → 0 ≤ raw i ∧ raw i ≤ 4095) :
    ∀ n, n ≤ 64 → (adc_accumulate raw n : Int) = ((List.range n).map raw).sum ∧
      adc_accumulate raw n ≤ 4095 * n := by
  intro n
  induction n with
  | zero => intro _; exact ⟨rfl, Nat.le_refl 0⟩
  | succ k ih =>
    intro hk
    obtain ⟨hs, hb⟩ := ih (by omega)
    obtain ⟨r0, r1⟩ := h k (by omega)
    have hu : (adc_accumulate raw (k + 1) : Int) = (adc_accumulate raw k : Int) + raw k := by
      rw [adc_accumulate, Int.ofNat_eq_coe]
      exact toUInt32_eq _ (by omega) (by omega)
    rw [List.range_succ, List.map_append, List.sum_append, List.map_singleton,
      List.sum_singleton, ← hs]
    exact ⟨hu, by omega⟩

/-- C4: when the 64 readings of a tick are in the 12-bit range, the `uint32_t`
accumulator equals the exact running sum after every iteration (no
wrap-around) and `adc_reading` is the integer-truncated mean
`floor((r_0 + ... + r_63) / 64)`. -/
theorem adc_reading_mean (raw : Nat → Int) (h : ∀ i, i < 64 → 0 ≤ raw i ∧ raw i ≤ 4095) :
    (adc_reading raw : Int) = truncatedMean raw 64 ∧
      ∀ n, n ≤ 64 → (adc_accumulate raw n : Int) = ((List.range n).map raw).sum := by
  have hacc := adc_accumulate_eq raw h
  refine ⟨?_, fun n hn => (hacc n hn).1⟩
  have h64 := (hacc 64 (Nat.le_refl 64)).1
  unfold adc_reading truncatedMean NO_OF_SAMPLES
  rw [← h64, Int.ofNat_eq_coe]
  omega

/-- Witness of C4: readings climbing from 0 to 4095. -/
theorem adc_reading_mean_witness :
    (∀ i, i < 64 → 0 ≤ rampRaw i ∧ rampRaw i ≤ 4095) ∧
      (adc_reading rampRaw : Int) = truncatedMean rampRaw 64 :=
  ⟨by decide, (adc_reading_mean rampRaw (by decide)).1⟩

/-- C5: whatever the averaged reading, line 266 stores 0 in `final_pression`:
`100/4095` is the integer 0; so every tick of `adc_read` publishes 0. -/
theorem pression_always_zero (g : Shared) (adc1_get_raw : Nat → Int)
    (raw_to_voltage : Nat → Nat) (end_level : Bool) :
    (∀ r : Nat, pression_of r = 0) ∧
      (adc_read_tick g adc1_get_raw raw_to_voltage end_level).1.final_pression = 0 := by
  have h : ∀ r : Nat, pression_of r = 0 := by
    intro r
    unfold pression_of toUInt8 toUInt32
    simp
  exact ⟨h, h _⟩

end Telemetry
